import Mathlib

/-!
Shallow embedding of `src/public/js/color-sim.js` (colsim repository).

The file has two numeric layers:

* The matrix-table / severity-interpolation path (`loadMachadoMatrices`,
  `clamp01`, `lerpMatrix`, `getMachadoMatrixSync`) uses only rational
  arithmetic, so it is embedded over `ℚ`.  JavaScript `NaN` is observable
  on this path (the severity argument may be `NaN` and every comparison
  with `NaN` is `false`), so numbers are modelled as `Option ℚ` with
  `none` standing for `NaN`.  Infinite values are not modelled: no claim
  mentions them and the table data comes from JSON, which cannot encode
  non-finite numbers.

* The per-pixel colour transform (`srgbToLinear`, `linearToSrgb`,
  `transformRgbWithMatrix_srgbLinear` and the pixel loop of
  `applyCvdSimulation`) uses `Math.pow` with exponent 2.4, so it is
  embedded over `ℝ` with `Real.rpow`.

JSON tables are modelled as association lists (JavaScript object keys are
unique and `Object.keys` yields them in insertion order for non-index
string keys such as "0.0").
-/

namespace ColorSim

/-! ### JavaScript numbers on the interpolation path -/

/-- A JavaScript number on the table path: `none` models `NaN`. -/
abbrev JNum := Option ℚ

/-- JavaScript `<`: any comparison involving `NaN` is `false`. -/
def jlt : JNum → JNum → Bool
  | some a, some b => decide (a < b)
  | _, _ => false

/-- JavaScript `<=`: any comparison involving `NaN` is `false`. -/
def jle : JNum → JNum → Bool
  | some a, some b => decide (a ≤ b)
  | _, _ => false

/-- JavaScript `+` on the table path: `NaN` is absorbing. -/
def jadd : JNum → JNum → JNum
  | some a, some b => some (a + b)
  | _, _ => none

/-- JavaScript `-` on the table path: `NaN` is absorbing. -/
def jsub : JNum → JNum → JNum
  | some a, some b => some (a - b)
  | _, _ => none

/-- JavaScript `*` on the table path: `NaN` is absorbing. -/
def jmul : JNum → JNum → JNum
  | some a, some b => some (a * b)
  | _, _ => none

/-- JavaScript `/` on the table path.  Division by zero is unreachable in
the embedded code (the denominator is the difference of two distinct
bracketing keys), so it is mapped to `none`. -/
def jdiv : JNum → JNum → JNum
  | some a, some b => if b = 0 then none else some (a / b)
  | _, _ => none

/-- Line 21-23: `clamp01 = (v) => v < 0 ? 0 : v > 1 ? 1 : v`, at the type
it is used at in `getMachadoMatrixSync` (the severity may be `NaN`, and
`NaN` fails both comparisons, so it passes through unchanged). -/
def clamp01 (v : JNum) : JNum :=
  if jlt v (some 0) then some 0 else if jlt (some 1) v then some 1 else v

/-- Mathematical clamp of a (non-`NaN`) rational into `[0,1]`, used to
state what `clamp01` does on `some` values. -/
def qclamp (x : ℚ) : ℚ :=
  if x < 0 then 0 else if 1 < x then 1 else x

/-! ### Matrices and linear interpolation -/

/-- A 3×3 matrix of finite numbers, as parsed from the JSON table. -/
abbrev Mat3 := Fin 3 → Fin 3 → ℚ

/-- A 3×3 matrix whose entries may be `NaN` (the output of `lerpMatrix`
when the interpolation parameter is `NaN`). -/
abbrev JMat3 := Fin 3 → Fin 3 → JNum

/-- A finite matrix viewed as a possibly-`NaN` matrix. -/
def matToJ (m : Mat3) : JMat3 := fun r c => some (m r c)

/-- Lines 38-46: `lerpMatrix(a, b, t)` with
`out[r][c] = a[r][c] * (1 - t) + b[r][c] * t`. -/
def lerpMatrix (a b : Mat3) (t : JNum) : JMat3 := fun r c =>
  jadd (jmul (some (a r c)) (jsub (some 1) t)) (jmul (some (b r c)) t)

/-! ### String/number conversions used for the table keys -/

/-- Value of a list of decimal digit characters. -/
def digitsVal (cs : List Char) : ℕ :=
  cs.foldl (fun acc c => acc * 10 + (c.toNat - 48)) 0

/-- JavaScript `parseFloat`, restricted to plain decimal literals
(optional sign, integer digits, optional fractional digits; trailing
garbage ignored as in JS prefix parsing; exponents and `Infinity` are not
modelled — the table keys are plain decimals).  `none` models `NaN`. -/
def parseFloatQ (s : String) : Option ℚ :=
  let cs := s.data
  let sgn : ℚ := match cs with
    | '-' :: _ => -1
    | _ => 1
  let cs1 : List Char := match cs with
    | '-' :: r => r
    | '+' :: r => r
    | _ => cs
  let ip := cs1.takeWhile Char.isDigit
  let rest := cs1.dropWhile Char.isDigit
  let fp : List Char := match rest with
    | '.' :: r => r.takeWhile Char.isDigit
    | _ => []
  if ip.isEmpty && fp.isEmpty then none
  else some (sgn * ((digitsVal ip : ℚ) + (digitsVal fp : ℚ) / (10 : ℚ) ^ fp.length))

/-- Line 76: `keyFromNum = (x) => x.toFixed(1)`.  ECMAScript `toFixed(1)`
picks the integer `n` minimising `|n / 10 - x|`, breaking ties towards the
larger `n`, i.e. `n = ⌊10 x + 1/2⌋`, and prints `n / 10` with one
fractional digit. -/
def toFixed1 (x : ℚ) : String :=
  let n : ℤ := Int.floor (10 * x + 1 / 2)
  let a : ℕ := n.natAbs
  (if n < 0 then "-" else "") ++ toString (a / 10) ++ "." ++ toString (a % 10)

/-! ### The table and its lookup -/

/-- One mode's JSON object: severity-key string to matrix. -/
abbrev ModeTable := List (String × Mat3)

/-- The whole JSON table: mode name to mode table. -/
abbrev Table := List (String × ModeTable)

/-- Lines 86-97: the bracketing-interval search loop.  Returns the first
adjacent pair `(a, b)` of the key list with `s >= a && s <= b` (both
comparisons `false` when `s` is `NaN`), or `none` when the loop finishes
without `break`. -/
def findBracket (s : JNum) : List ℚ → Option (ℚ × ℚ)
  | a :: b :: rest =>
    if jle (some a) s && jle s (some b) then some (a, b)
    else findBracket s (b :: rest)
  | _ => none

/-- Lines 71-107 of `getMachadoMatrixSync`, after the sorted key list has
been computed: the empty-table check, the two boundary clamps, the
bracket search (whose `k0`/`k1` default to the first two keys when the
loop never breaks, which happens exactly when `s` is `NaN`), the missing
matrix check, and the interpolation.  `Except.error` models the JS
`TypeError` thrown by `undefined.toFixed` when the key list has exactly
one element and `s` is `NaN` (so that both boundary returns are skipped
but `sampleKeys[1]` is `undefined`). -/
def resolveSorted (modeT : ModeTable) (s : JNum) : List ℚ → Except Unit (Option JMat3)
  | [] => Except.ok none
  | k0 :: rest =>
    if jle s (some k0) then Except.ok ((modeT.lookup (toFixed1 k0)).map matToJ)
    else if jle (some (rest.getLastD k0)) s then
      Except.ok ((modeT.lookup (toFixed1 (rest.getLastD k0))).map matToJ)
    else
      match rest with
      | [] => Except.error ()
      | k1 :: rest' =>
        let p := (findBracket s (k0 :: k1 :: rest')).getD (k0, k1)
        match modeT.lookup (toFixed1 p.1), modeT.lookup (toFixed1 p.2) with
        | some m0, some m1 =>
          Except.ok (some (lerpMatrix m0 m1 (jdiv (jsub s (some p.1)) (jsub (some p.2) (some p.1)))))
        | _, _ => Except.ok none

/-- Lines 52-108: `getMachadoMatrixSync(mode, severity)`.  The cached
table is passed explicitly (`none` models `MACHADO_TABLE === null`).
`Except.ok none` models the `return null` paths ("not loaded", "unknown
mode", "no severity entries", "matrix missing"); the boundary returns
hand back `table[key]` unchecked, so a failed lookup there is JavaScript
`undefined`, which is also falsy and hence folded into `none`. -/
def getMachadoMatrixSync (cache : Option Table) (mode : String) (severity : JNum) :
    Except Unit (Option JMat3) :=
  match cache with
  | none => Except.ok none
  | some tbl =>
    match tbl.lookup mode with
    | none => Except.ok none
    | some modeT =>
      resolveSorted modeT (clamp01 severity)
        (List.insertionSort (· ≤ ·) ((modeT.map Prod.fst).filterMap parseFloatQ))

/-! ### The cached loader -/

/-- Outcome of `fetch(url)` + `res.ok` check + `res.json()`: `Except.error`
models any of the three failure modes (rejected fetch, non-ok status,
JSON parse failure); `Except.ok` carries the parsed table object. -/
abbrev FetchResult := Except String Table

/-- Lines 10-19: `loadMachadoMatrices`.  State-passing embedding: the
first component of the result is the cache (`MACHADO_TABLE`) after the
call, the second the returned/thrown value.  If the cache is populated
the fetch is not consulted at all; a throw happens before the assignment
to `MACHADO_TABLE`, so the cache stays empty on failure.  Note the
function performs no structural validation of the parsed JSON. -/
def loadMachadoMatrices (cache : Option Table) (fetch : FetchResult) :
    Option Table × Except String Table :=
  match cache with
  | some t => (some t, Except.ok t)
  | none =>
    match fetch with
    | Except.error e => (none, Except.error e)
    | Except.ok t => (some t, Except.ok t)

/-! ### The per-pixel colour transform (real-valued layer) -/

/-- A 3×3 matrix of finite reals, the matrix argument of the pixel
transform. -/
abbrev RMat3 := Fin 3 → Fin 3 → ℝ

/-- Lines 25-27: `srgbToLinear(c)`. -/
noncomputable def srgbToLinear (c : ℝ) : ℝ :=
  if c ≤ 0.04045 then c / 12.92 else ((c + 0.055) / 1.055) ^ (2.4 : ℝ)

/-- Lines 29-33: `linearToSrgb(c)`. -/
noncomputable def linearToSrgb (c : ℝ) : ℝ :=
  if c ≤ 0.0031308 then 12.92 * c else 1.055 * c ^ (1 / 2.4 : ℝ) - 0.055

/-- Lines 21-23 again: `clamp01` at the type it is used at inside
`transformRgbWithMatrix_srgbLinear` (finite channel values). -/
noncomputable def clamp01R (v : ℝ) : ℝ :=
  if v < 0 then 0 else if 1 < v then 1 else v

/-- JavaScript `Math.round` on finite doubles: round half towards
positive infinity, i.e. `⌊x + 1/2⌋`. -/
noncomputable def jsRound (x : ℝ) : ℤ := Int.floor (x + 1 / 2)

/-- Lines 113-136: `transformRgbWithMatrix_srgbLinear(r, g, b, mat)`.
Returns the rounded output channels (the final
`[outR, outG, outB].map((x) => Math.round(x))`). -/
noncomputable def transformRgbWithMatrix_srgbLinear (r g b : ℝ) (mat : RMat3) : ℤ × ℤ × ℤ :=
  let R := r / 255
  let G := g / 255
  let B := b / 255
  let R1 := srgbToLinear R
  let G1 := srgbToLinear G
  let B1 := srgbToLinear B
  let R2 := mat 0 0 * R1 + mat 0 1 * G1 + mat 0 2 * B1
  let G2 := mat 1 0 * R1 + mat 1 1 * G1 + mat 1 2 * B1
  let B2 := mat 2 0 * R1 + mat 2 1 * G1 + mat 2 2 * B1
  let R3 := linearToSrgb R2
  let G3 := linearToSrgb G2
  let B3 := linearToSrgb B2
  let outR := clamp01R R3 * 255
  let outG := clamp01R G3 * 255
  let outB := clamp01R B3 * 255
  (jsRound outR, jsRound outG, jsRound outB)

/-- Lines 158-169: the body of the pixel loop of `applyCvdSimulation` for
one RGBA pixel: the RGB channels go through
`transformRgbWithMatrix_srgbLinear`, the alpha channel is copied
unchanged (`dstData[i + 3] = a`). -/
noncomputable def applyCvdPixel (mat : RMat3) (p : Fin 256 × Fin 256 × Fin 256 × Fin 256) :
    ℤ × ℤ × ℤ × Fin 256 :=
  let t := transformRgbWithMatrix_srgbLinear (p.1 : ℝ) (p.2.1 : ℝ) (p.2.2.1 : ℝ) mat
  (t.1, t.2.1, t.2.2, p.2.2.2)

/-! ### Spec-side description of the per-pixel transform

The following definitions transcribe the wording of the specification
(§4.3 steps 1-6), for comparison with the source-derived definitions
above. -/

/-- Spec step 2: the standard sRGB inverse transfer function. -/
noncomputable def specSrgbInverse (c : ℝ) : ℝ :=
  if c ≤ 0.04045 then c / 12.92 else ((c + 0.055) / 1.055) ^ (2.4 : ℝ)

/-- Spec step 4: the standard sRGB forward transfer function. -/
noncomputable def specSrgbForward (c : ℝ) : ℝ :=
  if c ≤ 0.0031308 then 12.92 * c else 1.055 * c ^ (1 / 2.4 : ℝ) - 0.055

/-- Spec steps 1-6: normalise by 255, convert to linear light, apply the
matrix by standard matrix-vector multiplication, convert back, clamp to
`[0,1]`, scale by 255, round to the nearest integer, and pass the alpha
channel through unchanged. -/
noncomputable def specPixelTransform (mat : RMat3) (r g b a : Fin 256) :
    ℤ × ℤ × ℤ × Fin 256 :=
  let enc : Fin 3 → ℝ := ![(r : ℝ) / 255, (g : ℝ) / 255, (b : ℝ) / 255]
  let lin : Fin 3 → ℝ := fun i => specSrgbInverse (enc i)
  let applied : Fin 3 → ℝ := fun i => ∑ j, mat i j * lin j
  let back : Fin 3 → ℝ := fun i => specSrgbForward (applied i)
  let out : Fin 3 → ℤ := fun i => round (max 0 (min 1 (back i)) * 255)
  (out 0, out 1, out 2, a)

/-- The identity matrix `[[1,0,0],[0,1,0],[0,0,1]]` of the round-trip
claim. -/
def idMat3 : RMat3 := fun i j => if i = j then 1 else 0

/-! ### Well-formed mode tables

`WFMode samples modeT` says that the JSON object `modeT` stores the
sample list `samples` in the format required by the spec's schema (§3,
§6): each severity is keyed by its one-fractional-digit decimal string,
keys round-trip through formatting and parsing, severities are distinct,
ascending and inside `[0,1]`. -/
structure WFMode (samples : List (ℚ × Mat3)) (modeT : ModeTable) : Prop where
  eq : modeT = samples.map (fun p => (toFixed1 p.1, p.2))
  sorted : (samples.map Prod.fst).Chain' (· < ·)
  roundtrip : ∀ p ∈ samples, parseFloatQ (toFixed1 p.1) = some p.1
  range : ∀ p ∈ samples, 0 ≤ p.1 ∧ p.1 ≤ 1

/-! ### Concrete tables used by the witnesses and counterexamples -/

/-- A concrete sample matrix (the identity). -/
def wMatA : Mat3 := fun i j => if i = j then 1 else 0

/-- A concrete sample matrix with distinct entries. -/
def wMatB : Mat3 := fun i j => ((i : ℚ) + 1) / ((j : ℚ) + 2)

/-- A concrete sample matrix with distinct entries. -/
def wMatC : Mat3 := fun i j => (i : ℚ) - (j : ℚ) / 4

/-- A concrete well-formed mode table with samples at 0, 1/2 and 1. -/
def wSamples : List (ℚ × Mat3) := [(0, wMatA), (1/2, wMatB), (1, wMatC)]

/-- The JSON object storing `wSamples`. -/
def wModeT : ModeTable := [("0.0", wMatA), ("0.5", wMatB), ("1.0", wMatC)]

/-- A concrete loaded table with one mode. -/
def wTable : Table := [("protan", wModeT)]

/-- A structurally invalid source: the mode "protan" is present but has
no severity samples at all. -/
def badTable : Table := [("protan", [])]

/-! ### Basic reduction lemmas -/

theorem clamp01_some (x : ℚ) : clamp01 (some x) = some (qclamp x) := by
  simp only [clamp01, qclamp, jlt]
  by_cases h1 : x < 0 <;> by_cases h2 : 1 < x <;> simp [h1, h2]

theorem clamp01_none : clamp01 none = none := rfl

theorem lerpMatrix_some (a b : Mat3) (t : ℚ) :
    lerpMatrix a b (some t) = fun r c => some (a r c * (1 - t) + b r c * t) := rfl

theorem lerpMatrix_none (a b : Mat3) : lerpMatrix a b none = fun _ _ => none := rfl

theorem lerpMatrix_zero (a b : Mat3) : lerpMatrix a b (some 0) = matToJ a := by
  funext r c
  simp [lerpMatrix_some, matToJ]

theorem lerpMatrix_one (a b : Mat3) : lerpMatrix a b (some 1) = matToJ b := by
  funext r c
  simp [lerpMatrix_some, matToJ]

theorem getLast?_cons_eq_getLastD (d : ℚ) (t : List ℚ) :
    (d :: t).getLast? = some (t.getLastD d) := by
  induction t generalizing d with
  | nil => rfl
  | cons a t ih => rw [List.getLast?_cons_cons, ih a, List.getLastD_cons]

/-! ### The sorted key list of a well-formed mode table -/

theorem filterMap_parse (l : List (ℚ × Mat3))
    (hrt : ∀ p ∈ l, parseFloatQ (toFixed1 p.1) = some p.1) :
    (l.map fun p => toFixed1 p.1).filterMap parseFloatQ = l.map Prod.fst := by
  induction l with
  | nil => rfl
  | cons hd tl ih =>
    simp only [List.map_cons, List.filterMap_cons, hrt hd (List.mem_cons_self hd tl)]
    rw [ih fun p hp => hrt p (List.mem_cons_of_mem hd hp)]

theorem WFMode.sortedLe {samples : List (ℚ × Mat3)} {modeT : ModeTable}
    (hwf : WFMode samples modeT) : List.Sorted (· ≤ ·) (samples.map Prod.fst) :=
  (List.chain'_iff_pairwise.mp hwf.sorted).imp le_of_lt

theorem WFMode.nodupKeys {samples : List (ℚ × Mat3)} {modeT : ModeTable}
    (hwf : WFMode samples modeT) : (samples.map Prod.fst).Nodup :=
  (List.chain'_iff_pairwise.mp hwf.sorted).imp ne_of_lt

theorem sampleKeys_eq {samples : List (ℚ × Mat3)} {modeT : ModeTable}
    (hwf : WFMode samples modeT) :
    List.insertionSort (· ≤ ·) ((modeT.map Prod.fst).filterMap parseFloatQ) =
      samples.map Prod.fst := by
  have h1 : modeT.map Prod.fst = samples.map fun p => toFixed1 p.1 := by
    rw [hwf.eq, List.map_map]
    rfl
  rw [h1, filterMap_parse samples hwf.roundtrip]
  exact hwf.sortedLe.insertionSort_eq

/-! ### Key lookup in a well-formed mode table -/

theorem lookup_mapped (l : List (ℚ × Mat3))
    (hrt : ∀ p ∈ l, parseFloatQ (toFixed1 p.1) = some p.1)
    (hnd : (l.map Prod.fst).Nodup) {p : ℚ × Mat3} (hp : p ∈ l) :
    (l.map fun q => (toFixed1 q.1, q.2)).lookup (toFixed1 p.1) = some p.2 := by
  induction l with
  | nil => cases hp
  | cons hd tl ih =>
    simp only [List.map_cons, List.lookup_cons]
    rcases List.mem_cons.mp hp with hph | hptl
    · subst hph
      simp
    · have hne : p.1 ≠ hd.1 := by
        intro h
        have : hd.1 ∈ tl.map Prod.fst := h ▸ List.mem_map_of_mem Prod.fst hptl
        exact (List.nodup_cons.mp (by simpa using hnd)).1 this
      have hfix : (toFixed1 p.1 == toFixed1 hd.1) = false := by
        rw [beq_eq_false_iff_ne]
        intro h
        have h1 := hrt p hp
        have h2 := hrt hd (List.mem_cons_self hd tl)
        rw [h] at h1
        rw [h1] at h2
        exact hne (Option.some_injective _ h2)
      rw [hfix]
      exact ih (fun q hq => hrt q (List.mem_cons_of_mem hd hq))
        (by simpa using (List.nodup_cons.mp (by simpa using hnd)).2) hptl

theorem lookup_wf {samples : List (ℚ × Mat3)} {modeT : ModeTable}
    (hwf : WFMode samples modeT) {p : ℚ × Mat3} (hp : p ∈ samples) :
    modeT.lookup (toFixed1 p.1) = some p.2 := by
  rw [hwf.eq]
  exact lookup_mapped samples hwf.roundtrip hwf.nodupKeys hp

/-! ### The bracket search -/

theorem findBracket_nan (l : List ℚ) : findBracket none l = none := by
  induction l with
  | nil => rfl
  | cons a t ih =>
    cases t with
    | nil => rfl
    | cons b r => simpa [findBracket, jle] using ih

theorem findBracket_some (s : ℚ) (rest : List ℚ) :
    ∀ (a b : ℚ), a ≤ s → s ≤ rest.getLastD b →
      ∃ i a' b', findBracket (some s) (a :: b :: rest) = some (a', b') ∧
        a' ≤ s ∧ s ≤ b' ∧
        (a :: b :: rest)[i]? = some a' ∧ (a :: b :: rest)[i + 1]? = some b' := by
  induction rest with
  | nil =>
    intro a b ha hb
    have hb2 : s ≤ b := hb
    refine ⟨0, a, b, ?_, ha, hb2, rfl, rfl⟩
    simp [findBracket, jle, ha, hb2]
  | cons c r ih =>
    intro a b ha hlast
    by_cases hb : s ≤ b
    · exact ⟨0, a, b, by simp [findBracket, jle, ha, hb], ha, hb, rfl, rfl⟩
    · have hb' : b ≤ s := le_of_not_le hb
      have hlast' : s ≤ r.getLastD c := by
        rwa [List.getLastD_cons] at hlast
      obtain ⟨i, a', b', hfb, ha', hb'', h1, h2⟩ := ih b c hb' hlast'
      refine ⟨i + 1, a', b', ?_, ha', hb'', ?_, ?_⟩
      · simpa [findBracket, jle, hb] using hfb
      · simpa [List.getElem?_cons_succ] using h1
      · simpa [List.getElem?_cons_succ] using h2

/-! ### Reducing `getMachadoMatrixSync` on a well-formed table -/

theorem getMachado_eq {tbl : Table} {mode : String} {modeT : ModeTable}
    {samples : List (ℚ × Mat3)} (hmode : tbl.lookup mode = some modeT)
    (hwf : WFMode samples modeT) (sev : JNum) :
    getMachadoMatrixSync (some tbl) mode sev =
      resolveSorted modeT (clamp01 sev) (samples.map Prod.fst) := by
  simp only [getMachadoMatrixSync, hmode, sampleKeys_eq hwf]

/-- C2: for a loaded well-formed table, a mode present in it, and a clamped
severity strictly between the smallest and largest sample points, the
resolved matrix is the element-wise linear interpolation of a bracketing
pair of adjacent samples `(k0, m0)`, `(k1, m1)` with `k0 ≤ s ≤ k1` and
fraction `t = (s - k0) / (k1 - k0)`:
`result[r][c] = m0[r][c] * (1 - t) + m1[r][c] * t`. -/
theorem C2_interior_interpolation
    {tbl : Table} {mode : String} {modeT : ModeTable} {samples : List (ℚ × Mat3)}
    (hmode : tbl.lookup mode = some modeT) (hwf : WFMode samples modeT)
    {kmin kmax : ℚ}
    (hmin : (samples.map Prod.fst).head? = some kmin)
    (hmax : (samples.map Prod.fst).getLast? = some kmax)
    (x : ℚ) (hlo : kmin < qclamp x) (hhi : qclamp x < kmax) :
    ∃ i k0 m0 k1 m1,
      samples[i]? = some (k0, m0) ∧ samples[i + 1]? = some (k1, m1) ∧
      k0 ≤ qclamp x ∧ qclamp x ≤ k1 ∧
      getMachadoMatrixSync (some tbl) mode (some x) =
        Except.ok (some fun r c =>
          some (m0 r c * (1 - (qclamp x - k0) / (k1 - k0)) +
                m1 r c * ((qclamp x - k0) / (k1 - k0)))) := by
  set s : ℚ := qclamp x with hs
  cases hk : samples.map Prod.fst with
  | nil => rw [hk] at hmin; cases hmin
  | cons kmin' ktl =>
    have hkmin : kmin' = kmin := by
      rw [hk] at hmin
      simpa using hmin
    subst hkmin
    cases ktl with
    | nil =>
      rw [hk] at hmax
      have : kmin' = kmax := by simpa using hmax
      exact absurd (hlo.trans hhi) (by rw [this]; exact lt_irrefl kmax)
    | cons k1 ktl' =>
      have hkL : ktl'.getLastD k1 = kmax := by
        have h := getLast?_cons_eq_getLastD kmin' (k1 :: ktl')
        rw [← hk, hmax] at h
        have h2 := (Option.some_injective _ h).symm
        rwa [List.getLastD_cons] at h2
      have hb1 : jle (some s) (some kmin') = false := by
        simp only [jle, decide_eq_false_iff_not, not_le]
        exact hlo
      have hb2 : jle (some ((k1 :: ktl').getLastD kmin')) (some s) = false := by
        rw [List.getLastD_cons, hkL]
        simp only [jle, decide_eq_false_iff_not, not_le]
        exact hhi
      obtain ⟨i, a', b', hfb, has, hsb, hidx1, hidx2⟩ :=
        findBracket_some s ktl' kmin' k1 (le_of_lt hlo) (by rw [hkL]; exact le_of_lt hhi)
      have hidx1' : samples[i]?.map Prod.fst = some a' := by
        rw [← List.getElem?_map, hk]
        exact hidx1
      have hidx2' : samples[i + 1]?.map Prod.fst = some b' := by
        rw [← List.getElem?_map, hk]
        exact hidx2
      obtain ⟨pa, hpa, hpa1⟩ := Option.map_eq_some'.mp hidx1'
      obtain ⟨pb, hpb, hpb1⟩ := Option.map_eq_some'.mp hidx2'
      have hlen : i + 1 < (samples.map Prod.fst).length := by
        rw [hk]
        exact (List.getElem?_eq_some.mp hidx2).1
      have hab : a' < b' := by
        have hp := List.chain'_iff_get.mp hwf.sorted i (by omega)
        have e1 : (samples.map Prod.fst)[i] = a' := by
          have h' : (samples.map Prod.fst)[i]? = some a' := by rw [hk]; exact hidx1
          exact (List.getElem?_eq_some.mp h').2
        have e2 : (samples.map Prod.fst)[i + 1] = b' := by
          have h' : (samples.map Prod.fst)[i + 1]? = some b' := by rw [hk]; exact hidx2
          exact (List.getElem?_eq_some.mp h').2
        rwa [List.get_eq_getElem, List.get_eq_getElem, e1, e2] at hp
      have hlk1 : modeT.lookup (toFixed1 a') = some pa.2 := by
        rw [← hpa1]
        exact lookup_wf hwf (List.getElem?_mem hpa)
      have hlk2 : modeT.lookup (toFixed1 b') = some pb.2 := by
        rw [← hpb1]
        exact lookup_wf hwf (List.getElem?_mem hpb)
      refine ⟨i, a', pa.2, b', pb.2, ?_, ?_, has, hsb, ?_⟩
      · rw [hpa, ← hpa1]
      · rw [hpb, ← hpb1]
      · rw [getMachado_eq hmode hwf (some x), clamp01_some, ← hs, hk]
        simp only [resolveSorted, hb1, hb2, Bool.false_eq_true, if_false, hfb,
          Option.getD_some, hlk1, hlk2]
        have hne : b' - a' ≠ 0 := sub_ne_zero_of_ne (ne_of_lt hab).symm
        simp only [jsub, jdiv, if_neg hne, lerpMatrix_some]

theorem jle_false_of_not_le {a b : ℚ} (h : ¬a ≤ b) : jle (some a) (some b) = false := by
  simp [jle, h]

theorem jle_true_of_le {a b : ℚ} (h : a ≤ b) : jle (some a) (some b) = true := by
  simp [jle, h]

theorem sample_at_key {samples : List (ℚ × Mat3)} {modeT : ModeTable}
    (hwf : WFMode samples modeT) {j : ℕ} {k : ℚ}
    (hjk : (samples.map Prod.fst)[j]? = some k) :
    ∃ mk : Mat3, samples[j]? = some (k, mk) ∧ modeT.lookup (toFixed1 k) = some mk := by
  rw [List.getElem?_map] at hjk
  obtain ⟨p, hp, hp1⟩ := Option.map_eq_some'.mp hjk
  refine ⟨p.2, ?_, ?_⟩
  · rw [hp, ← hp1]
  · rw [← hp1]
    exact lookup_wf hwf (List.getElem?_mem hp)

/-- C6: resolving a matrix at a severity equal to one of a mode's stored
sample keys (interior samples included) returns exactly the stored
matrix for that key. -/
theorem C6_exact_sample
    {tbl : Table} {mode : String} {modeT : ModeTable} {samples : List (ℚ × Mat3)}
    (hmode : tbl.lookup mode = some modeT) (hwf : WFMode samples modeT)
    {i : ℕ} {q : ℚ} {m : Mat3} (hq : samples[i]? = some (q, m)) :
    getMachadoMatrixSync (some tbl) mode (some q) = Except.ok (some (matToJ m)) := by
  have hmem : (q, m) ∈ samples := List.getElem?_mem hq
  have hrange := hwf.range _ hmem
  have hclamp : qclamp q = q := by
    simp only [qclamp]
    rw [if_neg (not_lt.mpr hrange.1), if_neg (not_lt.mpr hrange.2)]
  rw [getMachado_eq hmode hwf (some q), clamp01_some, hclamp]
  have hqkey : (samples.map Prod.fst)[i]? = some q := by
    rw [List.getElem?_map, hq]
    rfl
  have hpw := List.chain'_iff_pairwise.mp hwf.sorted
  cases hk : samples.map Prod.fst with
  | nil =>
    rw [hk] at hqkey
    simp at hqkey
  | cons k0 ktl =>
    rw [hk] at hqkey hpw
    have hilen : i < (k0 :: ktl).length := (List.getElem?_eq_some.mp hqkey).1
    have hqget : (k0 :: ktl)[i] = q := (List.getElem?_eq_some.mp hqkey).2
    by_cases h1 : q ≤ k0
    · have hk0q : k0 = q := by
        rcases Nat.eq_zero_or_pos i with hi | hi
        · subst hi
          exact hqget
        · exact le_antisymm
            (le_of_lt (hqget ▸ List.pairwise_iff_getElem.mp hpw 0 i (by omega) hilen hi)) h1
      simp only [resolveSorted, jle_true_of_le h1, if_true]
      rw [hk0q, lookup_wf hwf hmem, Option.map_some']
    · by_cases h2 : ktl.getLastD k0 ≤ q
      · have hkLq : ktl.getLastD k0 = q := by
          have hlast : (k0 :: ktl)[(k0 :: ktl).length - 1]? = some (ktl.getLastD k0) := by
            rw [← List.getLast?_eq_getElem?]
            exact getLast?_cons_eq_getLastD k0 ktl
          have hllen : (k0 :: ktl).length - 1 < (k0 :: ktl).length :=
            (List.getElem?_eq_some.mp hlast).1
          have hlget : (k0 :: ktl)[(k0 :: ktl).length - 1] = ktl.getLastD k0 :=
            (List.getElem?_eq_some.mp hlast).2
          rcases Nat.lt_or_ge i ((k0 :: ktl).length - 1) with hi | hi
          · have := List.pairwise_iff_getElem.mp hpw i ((k0 :: ktl).length - 1) hilen hllen hi
            rw [hqget, hlget] at this
            exact le_antisymm h2 (le_of_lt this)
          · have hieq : i = (k0 :: ktl).length - 1 := by omega
            subst hieq
            rw [← hlget]
            exact hqget
        simp only [resolveSorted, jle_false_of_not_le h1, Bool.false_eq_true, if_false,
          jle_true_of_le h2, if_true]
        rw [hkLq, lookup_wf hwf hmem, Option.map_some']
      · cases ktl with
        | nil => exact absurd (le_of_not_le h1) h2
        | cons k1 ktl' =>
          have hlast' : q ≤ ktl'.getLastD k1 := by
            have h3 := le_of_lt (not_le.mp h2)
            rwa [List.getLastD_cons] at h3
          obtain ⟨j, a', b', hfb, ha, hb, hj1, hj2⟩ :=
            findBracket_some q ktl' k0 k1 (le_of_lt (not_le.mp h1)) hlast'
          have hjlen : j + 1 < (k0 :: k1 :: ktl').length := (List.getElem?_eq_some.mp hj2).1
          have haget : (k0 :: k1 :: ktl')[j] = a' := (List.getElem?_eq_some.mp hj1).2
          have hbget : (k0 :: k1 :: ktl')[j + 1] = b' := (List.getElem?_eq_some.mp hj2).2
          have hab : a' < b' := by
            have := List.pairwise_iff_getElem.mp hpw j (j + 1) (by omega) hjlen (by omega)
            rwa [haget, hbget] at this
          have hji : j ≤ i := by
            by_contra hcon
            have := List.pairwise_iff_getElem.mp hpw i j hilen (by omega) (by omega)
            rw [hqget, haget] at this
            exact absurd ha (not_le.mpr this)
          have hij1 : i ≤ j + 1 := by
            by_contra hcon
            have := List.pairwise_iff_getElem.mp hpw (j + 1) i hjlen hilen (by omega)
            rw [hqget, hbget] at this
            exact absurd hb (not_le.mpr this)
          simp only [resolveSorted, jle_false_of_not_le h1, Bool.false_eq_true, if_false,
            jle_false_of_not_le h2, hfb, Option.getD_some]
          rcases (by omega : i = j ∨ i = j + 1) with hcase | hcase
          · have haq : a' = q := by
              rw [← hcase] at hj1
              rw [hj1] at hqkey
              exact Option.some_injective _ hqkey
            rw [haq]
            have hj2' : (samples.map Prod.fst)[j + 1]? = some b' := by
              rw [hk]
              exact hj2
            obtain ⟨mb, hsb', hlkb⟩ := sample_at_key hwf hj2'
            have hlka : modeT.lookup (toFixed1 q) = some m :=
              lookup_wf hwf (p := (q, m)) hmem
            rw [hlka, hlkb]
            have hab' : q < b' := haq ▸ hab
            have hden : b' - q ≠ 0 := sub_ne_zero_of_ne (ne_of_lt hab').symm
            simp only [jsub, jdiv, if_neg hden, sub_self, zero_div, lerpMatrix_zero]
          · have hbq : b' = q := by
              rw [← hcase] at hj2
              rw [hj2] at hqkey
              exact Option.some_injective _ hqkey
            rw [hbq]
            have hj1' : (samples.map Prod.fst)[j]? = some a' := by
              rw [hk]
              exact hj1
            obtain ⟨ma, hsa', hlka⟩ := sample_at_key hwf hj1'
            have hlkb : modeT.lookup (toFixed1 q) = some m :=
              lookup_wf hwf (p := (q, m)) hmem
            rw [hlka, hlkb]
            have hab' : a' < q := hbq ▸ hab
            have hden : q - a' ≠ 0 := sub_ne_zero_of_ne (ne_of_lt hab').symm
            simp only [jsub, jdiv, if_neg hden, div_self hden, lerpMatrix_one]

theorem sorted_head_le_last {l : List ℚ} (hpw : List.Pairwise (· < ·) l)
    {a b : ℚ} (ha : l.head? = some a) (hb : l.getLast? = some b) : a ≤ b := by
  cases l with
  | nil => cases ha
  | cons x t =>
    have hax : x = a := by simpa using ha
    rw [List.getLast?_eq_getElem?] at hb
    have hlen := (List.getElem?_eq_some.mp hb).1
    have hget := (List.getElem?_eq_some.mp hb).2
    rcases Nat.eq_zero_or_pos ((x :: t).length - 1) with h0 | h0
    · rw [h0] at hb
      have hxb : x = b := by simpa using hb
      rw [← hax, ← hxb]
    · have hlt := List.pairwise_iff_getElem.mp hpw 0 ((x :: t).length - 1) (by omega) hlen h0
      rw [hget] at hlt
      simp only [List.getElem_cons_zero] at hlt
      rw [← hax]
      exact le_of_lt hlt

/-- C7: for a mode of a loaded well-formed table, resolving below the
smallest sample key returns the smallest sample's matrix, resolving above
the largest returns the largest sample's matrix, and resolving at
severity 2 behaves identically to resolving at severity 1 (for any cache
and mode, because the severity is clamped to `[0,1]` before lookup). -/
theorem C7_boundary_clamping
    {tbl : Table} {mode : String} {modeT : ModeTable} {samples : List (ℚ × Mat3)}
    (hmode : tbl.lookup mode = some modeT) (hwf : WFMode samples modeT)
    {kmin kmax : ℚ} {mmin mmax : Mat3}
    (hmin : samples.head? = some (kmin, mmin))
    (hmax : samples.getLast? = some (kmax, mmax)) :
    (∀ x : ℚ, x < kmin →
      getMachadoMatrixSync (some tbl) mode (some x) = Except.ok (some (matToJ mmin))) ∧
    (∀ x : ℚ, kmax < x →
      getMachadoMatrixSync (some tbl) mode (some x) = Except.ok (some (matToJ mmax))) ∧
    (∀ (cache : Option Table) (md : String),
      getMachadoMatrixSync cache md (some 2) = getMachadoMatrixSync cache md (some 1)) := by
  have hmemmin : (kmin, mmin) ∈ samples := by
    cases samples with
    | nil => cases hmin
    | cons p0 stl =>
      have : p0 = (kmin, mmin) := by simpa using hmin
      rw [← this]
      exact List.mem_cons_self p0 stl
  have hmemmax : (kmax, mmax) ∈ samples := by
    have h := hmax
    rw [List.getLast?_eq_getElem?] at h
    exact List.getElem?_mem h
  have hr1 : 0 ≤ kmin ∧ kmin ≤ 1 := hwf.range _ hmemmin
  have hr2 : 0 ≤ kmax ∧ kmax ≤ 1 := hwf.range _ hmemmax
  have hkh : (samples.map Prod.fst).head? = some kmin := by
    rw [List.head?_map, hmin]
    rfl
  have hkl : (samples.map Prod.fst).getLast? = some kmax := by
    rw [List.getLast?_map, hmax]
    rfl
  have hpw := List.chain'_iff_pairwise.mp hwf.sorted
  refine ⟨?_, ?_, ?_⟩
  · intro x hx
    have hs : qclamp x ≤ kmin := by
      simp only [qclamp]
      split_ifs with h1 h2
      · exact hr1.1
      · exact absurd (lt_trans hx (lt_of_le_of_lt hr1.2 h2)) (lt_irrefl x)
      · exact le_of_lt hx
    rw [getMachado_eq hmode hwf (some x), clamp01_some]
    cases hk : samples.map Prod.fst with
    | nil => rw [hk] at hkh; cases hkh
    | cons k0 ktl =>
      have hk0 : k0 = kmin := by
        rw [hk] at hkh
        simpa using hkh
      have hjle : jle (some (qclamp x)) (some k0) = true := by
        rw [hk0]
        exact jle_true_of_le hs
      simp only [resolveSorted, hjle, if_true]
      rw [hk0, lookup_wf hwf (p := (kmin, mmin)) hmemmin, Option.map_some']
  · intro x hx
    have hs : kmax ≤ qclamp x := by
      simp only [qclamp]
      split_ifs with h1 h2
      · exact absurd (lt_trans (lt_of_le_of_lt hr2.1 hx) h1) (lt_irrefl 0)
      · exact hr2.2
      · exact le_of_lt hx
    rw [getMachado_eq hmode hwf (some x), clamp01_some]
    cases hk : samples.map Prod.fst with
    | nil => rw [hk] at hkh; cases hkh
    | cons k0 ktl =>
      have hk0 : k0 = kmin := by
        rw [hk] at hkh
        simpa using hkh
      have hkD : ktl.getLastD k0 = kmax := by
        have h := getLast?_cons_eq_getLastD k0 ktl
        rw [← hk, hkl] at h
        exact (Option.some_injective _ h).symm
      by_cases hc : qclamp x ≤ k0
      · have hminmax : kmin = kmax := by
          have h1 : kmin ≤ kmax := by
            rw [hk] at hpw
            rw [hk] at hkh hkl
            exact sorted_head_le_last hpw hkh hkl
          have h2 : kmax ≤ kmin := le_trans hs (hk0 ▸ hc)
          exact le_antisymm h1 h2
        have hmm : mmin = mmax := by
          have h1 := lookup_wf hwf (p := (kmin, mmin)) hmemmin
          have h2 := lookup_wf hwf (p := (kmax, mmax)) hmemmax
          rw [← hminmax] at h2
          rw [h1] at h2
          exact Option.some_injective _ h2
        have hjle : jle (some (qclamp x)) (some k0) = true := jle_true_of_le hc
        simp only [resolveSorted, hjle, if_true]
        rw [hk0, lookup_wf hwf (p := (kmin, mmin)) hmemmin, Option.map_some', hmm]
      · have hjle2 : jle (some (ktl.getLastD k0)) (some (qclamp x)) = true := by
          rw [hkD]
          exact jle_true_of_le hs
        simp only [resolveSorted, jle_false_of_not_le hc, Bool.false_eq_true, if_false,
          hjle2, if_true]
        rw [hkD, lookup_wf hwf (p := (kmax, mmax)) hmemmax, Option.map_some']
  · intro cache md
    cases cache with
    | none => rfl
    | some tbl2 =>
      have hcl : clamp01 (some (2 : ℚ)) = clamp01 (some (1 : ℚ)) := by
        rw [clamp01_some, clamp01_some]
        norm_num [qclamp]
      simp only [getMachadoMatrixSync, hcl]

/-- C4 (amended): a `NaN` severity is not clamped; it falls through every
comparison, the bracket search defaults to the first two keys, and the
interpolation parameter is `NaN`, so for a mode with at least two samples
the resolution returns a matrix every entry of which is `NaN`. -/
theorem C4_nan_severity_propagates
    {tbl : Table} {mode : String} {modeT : ModeTable} {samples : List (ℚ × Mat3)}
    (hmode : tbl.lookup mode = some modeT) (hwf : WFMode samples modeT)
    (h2 : 2 ≤ samples.length) :
    getMachadoMatrixSync (some tbl) mode none = Except.ok (some fun _ _ => none) := by
  rw [getMachado_eq hmode hwf none, clamp01_none]
  cases samples with
  | nil => simp at h2
  | cons p0 stl =>
    cases stl with
    | nil => simp at h2
    | cons p1 stl' =>
      have hm0 : p0 ∈ p0 :: p1 :: stl' := List.mem_cons_self _ _
      have hm1 : p1 ∈ p0 :: p1 :: stl' := List.mem_cons_of_mem _ (List.mem_cons_self _ _)
      simp only [List.map_cons, resolveSorted, jle, Bool.false_eq_true, if_false,
        findBracket_nan, Option.getD_none]
      rw [lookup_wf hwf hm0, lookup_wf hwf hm1]
      simp only [jsub, jdiv, lerpMatrix_none]

/-- C8: resolution returns the JavaScript `null` (embedded as
`Except.ok none`), not an exception, when the table is not loaded, when
the mode is not a key of the table, and when the mode's severity sample
set is empty — for every severity, `NaN` included. -/
theorem C8_unavailable_results :
    (∀ (mode : String) (sev : JNum), getMachadoMatrixSync none mode sev = Except.ok none) ∧
    (∀ (tbl : Table) (mode : String) (sev : JNum), tbl.lookup mode = none →
      getMachadoMatrixSync (some tbl) mode sev = Except.ok none) ∧
    (∀ (tbl : Table) (mode : String) (modeT : ModeTable) (sev : JNum),
      tbl.lookup mode = some modeT →
      (modeT.map Prod.fst).filterMap parseFloatQ = [] →
      getMachadoMatrixSync (some tbl) mode sev = Except.ok none) := by
  refine ⟨fun _ _ => rfl, fun tbl mode sev h => ?_, fun tbl mode modeT sev h1 h2 => ?_⟩
  · simp only [getMachadoMatrixSync, h]
  · simp only [getMachadoMatrixSync, h1, h2]
    rfl

/-- C9: once the cache holds a table, a load call returns it unchanged
without consulting the fetch result at all; a failed load leaves the
cache empty (unloaded), so a later call can retry. -/
theorem C9_cache_lifecycle :
    (∀ (t : Table) (f : FetchResult), loadMachadoMatrices (some t) f = (some t, Except.ok t)) ∧
    (∀ (e : String), loadMachadoMatrices none (Except.error e) = (none, Except.error e)) :=
  ⟨fun _ _ => rfl, fun _ => rfl⟩

/-- C3 (amended): the load operation performs no structural validation of
the parsed source: every successfully fetched and parsed table — one with
a sample-less mode included — is cached and returned as-is, and a load
fails only when the fetch or the JSON parsing fails. -/
theorem C3_load_does_not_validate (t : Table) :
    loadMachadoMatrices none (Except.ok t) = (some t, Except.ok t) := rfl

/-- C3 counterexample: a source in which mode "protan" has no severity
sample at all is accepted: the load succeeds, caches the table and
returns it, instead of failing with a load error. -/
theorem C3_counterexample_no_loaderror :
    loadMachadoMatrices none (Except.ok badTable) = (some badTable, Except.ok badTable) ∧
    ("protan", ([] : ModeTable)) ∈ badTable := by
  constructor
  · rfl
  · exact List.mem_cons_self _ _

/-! ### Evaluation lemmas for the concrete witness table -/

theorem toFixed1_zero : toFixed1 0 = "0.0" := by
  have hn : Int.floor (10 * (0 : ℚ) + 1 / 2) = 0 :=
    Int.floor_eq_iff.mpr (by norm_num)
  simp only [toFixed1, hn]
  rfl

theorem toFixed1_half : toFixed1 (1/2) = "0.5" := by
  have hn : Int.floor (10 * (1/2 : ℚ) + 1 / 2) = 5 :=
    Int.floor_eq_iff.mpr (by norm_num)
  simp only [toFixed1, hn]
  rfl

theorem toFixed1_one : toFixed1 1 = "1.0" := by
  have hn : Int.floor (10 * (1 : ℚ) + 1 / 2) = 10 :=
    Int.floor_eq_iff.mpr (by norm_num)
  simp only [toFixed1, hn]
  rfl

theorem parse_00 : parseFloatQ "0.0" = some 0 := by
  have h : parseFloatQ "0.0" =
      some ((1 : ℚ) * (((0 : ℕ) : ℚ) + ((0 : ℕ) : ℚ) / (10 : ℚ) ^ (1 : ℕ))) := rfl
  rw [h]
  norm_num

theorem parse_05 : parseFloatQ "0.5" = some (1/2) := by
  have h : parseFloatQ "0.5" =
      some ((1 : ℚ) * (((0 : ℕ) : ℚ) + ((5 : ℕ) : ℚ) / (10 : ℚ) ^ (1 : ℕ))) := rfl
  rw [h]
  norm_num

theorem parse_10 : parseFloatQ "1.0" = some 1 := by
  have h : parseFloatQ "1.0" =
      some ((1 : ℚ) * (((1 : ℕ) : ℚ) + ((0 : ℕ) : ℚ) / (10 : ℚ) ^ (1 : ℕ))) := rfl
  rw [h]
  norm_num

theorem wWF : WFMode wSamples wModeT := by
  refine ⟨?_, ?_, ?_, ?_⟩
  · simp only [wModeT, wSamples, List.map_cons, List.map_nil, toFixed1_zero, toFixed1_half,
      toFixed1_one]
  · simp only [wSamples, List.map_cons, List.map_nil, List.chain'_cons, List.chain'_singleton,
      and_true]
    norm_num
  · intro p hp
    simp only [wSamples, List.mem_cons, List.not_mem_nil, or_false] at hp
    rcases hp with rfl | rfl | rfl
    · show parseFloatQ (toFixed1 0) = some 0
      rw [toFixed1_zero]
      exact parse_00
    · show parseFloatQ (toFixed1 (1/2)) = some (1/2)
      rw [toFixed1_half]
      exact parse_05
    · show parseFloatQ (toFixed1 1) = some 1
      rw [toFixed1_one]
      exact parse_10
  · intro p hp
    simp only [wSamples, List.mem_cons, List.not_mem_nil, or_false] at hp
    rcases hp with rfl | rfl | rfl <;> norm_num

theorem resolveSorted_nan (modeT : ModeTable) (k0 k1 : ℚ) (rest : List ℚ)
    (m0 m1 : Mat3) (h0 : modeT.lookup (toFixed1 k0) = some m0)
    (h1 : modeT.lookup (toFixed1 k1) = some m1) :
    resolveSorted modeT none (k0 :: k1 :: rest) = Except.ok (some fun _ _ => none) := by
  simp only [resolveSorted, jle, Bool.false_eq_true, if_false, findBracket_nan,
    Option.getD_none, h0, h1, jsub, jdiv, lerpMatrix_none]

/-- C4 counterexample: on a concrete table with two or more samples,
resolving with `NaN` severity does not behave like resolving with
severity 0: the former yields the all-`NaN` matrix, the latter the
smallest sample's stored matrix. -/
theorem C4_counterexample_nan_not_clamped :
    getMachadoMatrixSync (some wTable) "protan" none ≠
      getMachadoMatrixSync (some wTable) "protan" (some 0) ∧
    getMachadoMatrixSync (some wTable) "protan" none = Except.ok (some fun _ _ => none) := by
  have hmode : wTable.lookup "protan" = some wModeT := rfl
  have hnan : getMachadoMatrixSync (some wTable) "protan" none =
      Except.ok (some fun _ _ => none) := by
    rw [getMachado_eq hmode wWF none, clamp01_none]
    simp only [wSamples, List.map_cons, List.map_nil]
    exact resolveSorted_nan wModeT 0 (1/2) _ wMatA wMatB
      (lookup_wf wWF (p := ((0 : ℚ), wMatA)) (by simp [wSamples]))
      (lookup_wf wWF (p := ((1/2 : ℚ), wMatB)) (by simp [wSamples]))
  have hzero : getMachadoMatrixSync (some wTable) "protan" (some 0) =
      Except.ok (some (matToJ wMatA)) := by
    rw [getMachado_eq hmode wWF (some 0), clamp01_some]
    have hq0 : qclamp 0 = 0 := by norm_num [qclamp]
    rw [hq0]
    simp only [wSamples, List.map_cons, List.map_nil]
    have hj : jle (some (0 : ℚ)) (some (0 : ℚ)) = true := jle_true_of_le le_rfl
    simp only [resolveSorted, hj, if_true]
    rw [lookup_wf wWF (p := ((0 : ℚ), wMatA)) (by simp [wSamples]), Option.map_some']
  refine ⟨?_, hnan⟩
  rw [hnan, hzero]
  intro heq
  have h1 : (fun _ _ => (none : JNum)) = matToJ wMatA := by
    simpa only [Except.ok.injEq, Option.some.injEq] using heq
  have h2 := congrFun (congrFun h1 0) 0
  simp [matToJ, wMatA] at h2

/-- Witness for C2 at a concrete table and severity 1/4. -/
theorem C2_interior_interpolation_witness :
    (0 : ℚ) < qclamp (1/4) ∧ qclamp (1/4) < 1 ∧
    (∃ i k0 m0 k1 m1,
      wSamples[i]? = some (k0, m0) ∧ wSamples[i + 1]? = some (k1, m1) ∧
      k0 ≤ qclamp (1/4) ∧ qclamp (1/4) ≤ k1 ∧
      getMachadoMatrixSync (some wTable) "protan" (some (1/4)) =
        Except.ok (some fun r c =>
          some (m0 r c * (1 - (qclamp (1/4) - k0) / (k1 - k0)) +
                m1 r c * ((qclamp (1/4) - k0) / (k1 - k0))))) :=
  ⟨by norm_num [qclamp], by norm_num [qclamp],
    C2_interior_interpolation (show wTable.lookup "protan" = some wModeT from rfl) wWF
      (show (wSamples.map Prod.fst).head? = some 0 from rfl)
      (show (wSamples.map Prod.fst).getLast? = some 1 from rfl)
      (1/4) (by norm_num [qclamp]) (by norm_num [qclamp])⟩

/-- Witness for C6 at the interior sample key 0.5 of a concrete table. -/
theorem C6_exact_sample_witness :
    getMachadoMatrixSync (some wTable) "protan" (some (1/2)) =
      Except.ok (some (matToJ wMatB)) :=
  C6_exact_sample (show wTable.lookup "protan" = some wModeT from rfl) wWF
    (show wSamples[1]? = some (1/2, wMatB) from rfl)

/-- Witness for C7 on a concrete table: severity −3 resolves to the first
sample's matrix, severity 3/2 to the last sample's matrix, and severity 2
resolves identically to severity 1. -/
theorem C7_boundary_clamping_witness :
    getMachadoMatrixSync (some wTable) "protan" (some (-3)) =
      Except.ok (some (matToJ wMatA)) ∧
    getMachadoMatrixSync (some wTable) "protan" (some (3/2)) =
      Except.ok (some (matToJ wMatC)) ∧
    getMachadoMatrixSync (some wTable) "protan" (some 2) =
      getMachadoMatrixSync (some wTable) "protan" (some 1) := by
  have h := C7_boundary_clamping (show wTable.lookup "protan" = some wModeT from rfl) wWF
    (show wSamples.head? = some (0, wMatA) from rfl)
    (show wSamples.getLast? = some (1, wMatC) from rfl)
  exact ⟨h.1 (-3) (by norm_num), h.2.1 (3/2) (by norm_num), h.2.2 (some wTable) "protan"⟩

/-- Witness for C4 (amended) on a concrete table. -/
theorem C4_nan_severity_propagates_witness :
    2 ≤ wSamples.length ∧
    getMachadoMatrixSync (some wTable) "protan" none = Except.ok (some fun _ _ => none) :=
  ⟨by norm_num [wSamples],
    C4_nan_severity_propagates (show wTable.lookup "protan" = some wModeT from rfl) wWF
      (by norm_num [wSamples])⟩

/-- Witness for C8 on concrete inputs: unloaded table, unknown mode, and
a mode with an empty sample set. -/
theorem C8_unavailable_results_witness :
    getMachadoMatrixSync none "protan" (some (1/2)) = Except.ok none ∧
    getMachadoMatrixSync (some wTable) "deutan" (some (1/2)) = Except.ok none ∧
    getMachadoMatrixSync (some badTable) "protan" (some (1/2)) = Except.ok none :=
  ⟨C8_unavailable_results.1 "protan" (some (1/2)),
    C8_unavailable_results.2.1 wTable "deutan" (some (1/2)) rfl,
    C8_unavailable_results.2.2 badTable "protan" [] (some (1/2)) rfl rfl⟩

/-! ### The real-valued pixel transform: lemmas and claims -/

theorem jsRound_eq_round (x : ℝ) : jsRound x = round x := by
  rw [jsRound, round_eq]

theorem clamp01R_eq_max_min (v : ℝ) : clamp01R v = max 0 (min 1 v) := by
  rw [clamp01R]
  split_ifs with h1 h2
  · rw [min_eq_right (by linarith), max_eq_left (by linarith)]
  · rw [min_eq_left (by linarith), max_eq_right (by linarith)]
  · rw [min_eq_right (by linarith), max_eq_right (by linarith)]

/-- C1: the per-pixel transform of the source is exactly the
specification's six-step pipeline: normalise by 255, sRGB inverse
transfer, matrix-vector multiplication, sRGB forward transfer, clamp to
`[0,1]`, scale by 255 and round to the nearest integer, with the source
alpha copied unchanged. -/
theorem C1_pixel_transform_follows_spec (mat : RMat3) (r g b a : Fin 256) :
    applyCvdPixel mat (r, g, b, a) = specPixelTransform mat r g b a := by
  unfold applyCvdPixel transformRgbWithMatrix_srgbLinear specPixelTransform
  simp only [show specSrgbInverse = srgbToLinear from rfl,
    show specSrgbForward = linearToSrgb from rfl,
    Fin.sum_univ_three, Matrix.cons_val_zero, Matrix.cons_val_one, Matrix.head_cons,
    jsRound_eq_round, clamp01R_eq_max_min, Prod.mk.injEq]
  refine ⟨?_, ?_, ?_, trivial⟩ <;> norm_num

theorem jsRound_clamp_bounds (v : ℝ) :
    0 ≤ jsRound (clamp01R v * 255) ∧ jsRound (clamp01R v * 255) ≤ 255 := by
  have h01 : 0 ≤ clamp01R v ∧ clamp01R v ≤ 1 := by
    rw [clamp01R]
    split_ifs with h1 h2
    · norm_num
    · norm_num
    · exact ⟨not_lt.mp h1, not_lt.mp h2⟩
  constructor
  · rw [jsRound, Int.le_floor]
    push_cast
    nlinarith [h01.1]
  · rw [jsRound]
    have h : ⌊clamp01R v * 255 + 1 / 2⌋ < 256 := by
      rw [Int.floor_lt]
      push_cast
      nlinarith [h01.2]
    omega

/-- C10: for every matrix of finite reals and every 8-bit input, each
output channel of the per-pixel transform is an integer in `[0, 255]` —
the clamp-then-round step makes over- and underflow impossible. -/
theorem C10_output_channels_in_range (mat : RMat3) (r g b : Fin 256) :
    (0 ≤ (transformRgbWithMatrix_srgbLinear (r : ℝ) (g : ℝ) (b : ℝ) mat).1 ∧
      (transformRgbWithMatrix_srgbLinear (r : ℝ) (g : ℝ) (b : ℝ) mat).1 ≤ 255) ∧
    (0 ≤ (transformRgbWithMatrix_srgbLinear (r : ℝ) (g : ℝ) (b : ℝ) mat).2.1 ∧
      (transformRgbWithMatrix_srgbLinear (r : ℝ) (g : ℝ) (b : ℝ) mat).2.1 ≤ 255) ∧
    (0 ≤ (transformRgbWithMatrix_srgbLinear (r : ℝ) (g : ℝ) (b : ℝ) mat).2.2 ∧
      (transformRgbWithMatrix_srgbLinear (r : ℝ) (g : ℝ) (b : ℝ) mat).2.2 ≤ 255) :=
  ⟨jsRound_clamp_bounds _, jsRound_clamp_bounds _, jsRound_clamp_bounds _⟩

theorem linearToSrgb_srgbToLinear (n : ℕ) (hn : n ≤ 255) :
    linearToSrgb (srgbToLinear ((n : ℝ) / 255)) = (n : ℝ) / 255 := by
  rcases le_or_lt (n : ℝ) 10 with h | h
  · have hc1 : (n : ℝ) / 255 ≤ 0.04045 := by
      rw [div_le_iff (by norm_num : (0 : ℝ) < 255)]
      calc (n : ℝ) ≤ 10 := h
        _ ≤ 0.04045 * 255 := by norm_num
    have hc2 : (n : ℝ) / 255 / 12.92 ≤ 0.0031308 := by
      calc (n : ℝ) / 255 / 12.92 ≤ 10 / 255 / 12.92 := by gcongr
        _ ≤ 0.0031308 := by norm_num
    rw [srgbToLinear, if_pos hc1, linearToSrgb, if_pos hc2, mul_comm,
      div_mul_cancel₀ _ (by norm_num : (12.92 : ℝ) ≠ 0)]
  · have h11 : (11 : ℝ) ≤ n := by
      have : 11 ≤ n := by
        have h10 : 10 < n := by exact_mod_cast h
        omega
      exact_mod_cast this
    have hc1 : ¬((n : ℝ) / 255 ≤ 0.04045) := by
      push_neg
      calc (0.04045 : ℝ) < 11 / 255 := by norm_num
        _ ≤ (n : ℝ) / 255 := by gcongr
    rw [srgbToLinear, if_neg hc1]
    have hc0 : (0 : ℝ) ≤ (n : ℝ) / 255 := by positivity
    have hx0 : (0 : ℝ) < ((n : ℝ) / 255 + 0.055) / 1.055 := by positivity
    have hxlb : (1001 / 10761 : ℝ) ≤ ((n : ℝ) / 255 + 0.055) / 1.055 := by
      have h255 : (11 / 255 : ℝ) ≤ (n : ℝ) / 255 := by gcongr
      calc (1001 / 10761 : ℝ) = (11 / 255 + 0.055) / 1.055 := by norm_num
        _ ≤ ((n : ℝ) / 255 + 0.055) / 1.055 := by gcongr
    have hkey : (0.0031308 : ℝ) < (((n : ℝ) / 255 + 0.055) / 1.055) ^ (2.4 : ℝ) := by
      have h1 : ((1001 / 10761 : ℝ)) ^ (2.4 : ℝ) ≤
          (((n : ℝ) / 255 + 0.055) / 1.055) ^ (2.4 : ℝ) :=
        Real.rpow_le_rpow (by norm_num) hxlb (by norm_num)
      have hb0 : (0 : ℝ) < 1001 / 10761 := by norm_num
      have hpow5 : ((1001 / 10761 : ℝ) ^ (2.4 : ℝ)) ^ (5 : ℕ) =
          (1001 / 10761 : ℝ) ^ (12 : ℕ) := by
        rw [← Real.rpow_natCast ((1001 / 10761 : ℝ) ^ (2.4 : ℝ)) 5,
          ← Real.rpow_mul hb0.le,
          show (2.4 : ℝ) * ((5 : ℕ) : ℝ) = ((12 : ℕ) : ℝ) by norm_num,
          Real.rpow_natCast]
      have hlt : (0.0031308 : ℝ) ^ (5 : ℕ) < ((1001 / 10761 : ℝ) ^ (2.4 : ℝ)) ^ (5 : ℕ) := by
        rw [hpow5]
        norm_num
      have h2 : (0.0031308 : ℝ) < (1001 / 10761 : ℝ) ^ (2.4 : ℝ) :=
        lt_of_pow_lt_pow_left 5 (Real.rpow_nonneg hb0.le _) hlt
      linarith
    rw [linearToSrgb, if_neg (not_le.mpr hkey), ← Real.rpow_mul hx0.le,
      show (2.4 : ℝ) * (1 / 2.4) = 1 by norm_num, Real.rpow_one]
    field_simp
    ring

theorem channel_id_roundtrip (n : ℕ) (hn : n ≤ 255) :
    jsRound (clamp01R (linearToSrgb (srgbToLinear ((n : ℝ) / 255))) * 255) = (n : ℤ) := by
  rw [linearToSrgb_srgbToLinear n hn]
  have h0 : (0 : ℝ) ≤ (n : ℝ) / 255 := by positivity
  have h1 : (n : ℝ) / 255 ≤ 1 := by
    rw [div_le_one (by norm_num : (0 : ℝ) < 255)]
    exact_mod_cast hn
  rw [clamp01R, if_neg (not_lt.mpr h0), if_neg (not_lt.mpr (by linarith)),
    div_mul_cancel₀ _ (by norm_num : (255 : ℝ) ≠ 0), jsRound]
  rw [Int.floor_eq_iff]
  constructor
  · push_cast
    linarith
  · push_cast
    linarith

/-- C5: transforming a pixel with the identity matrix reproduces the
original RGB channels within ±1 (here in fact exactly) and the alpha
channel exactly. -/
theorem C5_identity_matrix_roundtrip (r g b a : Fin 256) :
    |(applyCvdPixel idMat3 (r, g, b, a)).1 - (r : ℤ)| ≤ 1 ∧
    |(applyCvdPixel idMat3 (r, g, b, a)).2.1 - (g : ℤ)| ≤ 1 ∧
    |(applyCvdPixel idMat3 (r, g, b, a)).2.2.1 - (b : ℤ)| ≤ 1 ∧
    (applyCvdPixel idMat3 (r, g, b, a)).2.2.2 = a := by
  have key : applyCvdPixel idMat3 (r, g, b, a) = ((r : ℤ), (g : ℤ), (b : ℤ), a) := by
    unfold applyCvdPixel transformRgbWithMatrix_srgbLinear
    rw [show idMat3 0 0 = 1 from rfl, show idMat3 0 1 = 0 from rfl,
      show idMat3 0 2 = 0 from rfl, show idMat3 1 0 = 0 from rfl,
      show idMat3 1 1 = 1 from rfl, show idMat3 1 2 = 0 from rfl,
      show idMat3 2 0 = 0 from rfl, show idMat3 2 1 = 0 from rfl,
      show idMat3 2 2 = 1 from rfl]
    simp only [one_mul, zero_mul, add_zero, zero_add, Prod.mk.injEq]
    exact ⟨channel_id_roundtrip r.val (Nat.lt_succ_iff.mp r.isLt),
      channel_id_roundtrip g.val (Nat.lt_succ_iff.mp g.isLt),
      channel_id_roundtrip b.val (Nat.lt_succ_iff.mp b.isLt), trivial⟩
  rw [key]
  refine ⟨?_, ?_, ?_, rfl⟩ <;> simp

end ColorSim
